import Mathlib

/-!
Verification of the `ElementsWrapper` class of `@lumjs/web-core-extra`
(`src/lib/wrapper.js`), a dual-mode single-node / collection wrapper around
DOM elements.

The embedding models DOM nodes as finite labelled trees carrying a numeric
reference identity (object identity), JavaScript values relevant to the
wrapper as a small `Value` universe, and the four external collaborators
(markup parser, query engine, content inserter, event facility) as
parameters: query/parse collaborators live in an `Env` record of functions,
while the content inserter is modelled by the list of insertion calls the
wrapper emits.  Fallible paths (JS `throw`) are modelled with `Except`.
-/

/-- A DOM element node: a reference identity (object identity, used to tell
clones apart from originals), a tag name, and the list of child elements. -/
inductive DomNode where
  | mk : Nat → String → List DomNode → DomNode

/-- Object identity of a node. -/
def DomNode.ref : DomNode → Nat
  | .mk r _ _ => r

/-- Tag name of a node. -/
def DomNode.tag : DomNode → String
  | .mk _ t _ => t

/-- Child elements of a node (the DOM `children` collection). -/
def DomNode.kids : DomNode → List DomNode
  | .mk _ _ ks => ks

mutual

/-- Number of nodes in the tree rooted at `n` (used by the clone model to
allocate a contiguous block of fresh identities). -/
def DomNode.size : DomNode → Nat
  | .mk _ _ kids => 1 + sizeKids kids

def sizeKids : List DomNode → Nat
  | [] => 0
  | k :: ks => DomNode.size k + sizeKids ks

end

mutual

/-- Deep copy of a tree with fresh reference identities assigned in preorder
starting at `c`.  Together with `cloneNode` below this models the DOM
`node.cloneNode(true)` call: same structure, brand-new object identities. -/
def relabel : DomNode → Nat → DomNode
  | .mk _ tag kids, c => .mk c tag (relabelKids kids (c + 1))

def relabelKids : List DomNode → Nat → List DomNode
  | [], _ => []
  | k :: ks, c => relabel k c :: relabelKids ks (c + DomNode.size k)

end

/-- Models the external DOM call `n.cloneNode(true)` under an identity
allocator: the clone is `relabel n c` and the allocator advances past the
`n.size` identities the deep copy consumed. -/
def cloneNode (n : DomNode) (c : Nat) : DomNode × Nat :=
  (relabel n c, c + n.size)

mutual

/-- Structural equality of nodes: equal tags and recursively equal child
lists, ignoring reference identities. -/
def structEq : DomNode → DomNode → Bool
  | .mk _ t1 k1, .mk _ t2 k2 => t1 == t2 && structEqKids k1 k2

def structEqKids : List DomNode → List DomNode → Bool
  | [], [] => true
  | a :: as, b :: bs => structEq a b && structEqKids as bs
  | _, _ => false

end

/-- The JavaScript values the wrapper manipulates: an `Element` node, an
array/`NodeList`/`HTMLCollection` (ordered, indexable, with a length), a
string, `null`, and `undefined`. -/
inductive Value where
  | elem : DomNode → Value
  | list : List Value → Value
  | str : String → Value
  | vnull : Value
  | undefined : Value

/-- `v instanceof Element`. -/
def Value.isElem : Value → Bool
  | .elem _ => true
  | _ => false

/-- JavaScript truthiness for the values of this universe. -/
def Value.truthy : Value → Bool
  | .vnull => false
  | .undefined => false
  | .str s => !s.isEmpty
  | _ => true

/-- The classes a caller can configure as the `nodeClass` capability filter;
`instOf` below gives the JS `instanceof` behaviour of each. -/
inductive ClassK where
  | element
  | object
  | array

/-- JS `v instanceof ct` for the modelled classes: every `Element` is an
`Object`; arrays are `Array`s and `Object`s; strings, `null` and
`undefined` are not instances of anything. -/
def instOf : ClassK → Value → Bool
  | .element, .elem _ => true
  | .object, .elem _ => true
  | .object, .list _ => true
  | .array, .list _ => true
  | _, _ => false

/-- Models the external collaborator `@lumjs/web-core/utils.isCollection`:
per the spec's classification contract, a value counts as a collection iff
it exposes collection semantics (ordered, indexable, has a length) — in
this universe, exactly the array values.  The class argument is accepted
as in the source call sites. -/
def isCollectionV (v : Value) (_ct : ClassK) : Bool :=
  match v with
  | .list _ => true
  | _ => false

/-- `wraps.length` (only read by the source on collection values). -/
def valLength : Value → Nat
  | .list l => l.length
  | _ => 0

/-- `wraps[0]` on a collection value. -/
def valIndex0 : Value → Value
  | .list (x :: _) => x
  | _ => .undefined

/-- `v[n]` indexing on a collection value (`undefined` when out of range). -/
def valIndex : Value → Nat → Value
  | .list l, n => (l.get? n).getD .undefined
  | _, _ => .undefined

/-- The child elements of a node, as wrapper-universe values. -/
def kidVals (ks : List DomNode) : List Value :=
  ks.map Value.elem

/-- `v.children` read as a property (no iteration): an `HTMLCollection` for
an element, `undefined` for every other value. -/
def childrenProp : Value → Value
  | .elem nd => .list (kidVals nd.kids)
  | _ => .undefined

/-- The JS errors the wrapper can raise in the modelled paths. -/
inductive JsError where
  | typeError
  | referenceError

/-- `v.children` when the source immediately iterates the result
(`for (const child of node.children)`): iterating `undefined` throws. -/
def childrenVals : Value → Except JsError (List Value)
  | .elem nd => .ok (kidVals nd.kids)
  | _ => .error .typeError

/-- Opaque handle for plain objects that the wrapper only passes through to
external collaborators and never inspects (`options.parse`,
`options.getNested`). -/
abbrev ObjRef := Nat

/-- The wrapper's options record (`options` argument of the constructor and
of `get`/`find`/`query`/`getOptions`).  `Option` fields model keys that may
be absent (or `undefined`); `compiledMark` models the hidden
`WRAPPER_OPTS` symbol property marking an already-compiled record. -/
structure Options where
  nodeClass : Option ClassK
  separateSingle : Option Bool
  expandChildren : Option Bool
  wrapQueries : Option Bool
  queryDetails : Option Bool
  recompileOptions : Option Bool
  parse : Option ObjRef
  getNested : Option ObjRef
  compiledMark : Bool

/-- The empty options object `{}`. -/
def optsNone : Options :=
  ⟨none, none, none, none, none, none, none, none, false⟩

/-- Shallow merge `Object.assign({}, base, local)` on option records: every
key present in `local` overrides the base value, keys absent from `local`
keep the base value.  `Object.assign` also copies the enumerable
`WRAPPER_OPTS` symbol when `local` carries it, so the marker of the merge
is the disjunction. -/
def mergeOptions (base lo : Options) : Options :=
  ⟨lo.nodeClass <|> base.nodeClass,
   lo.separateSingle <|> base.separateSingle,
   lo.expandChildren <|> base.expandChildren,
   lo.wrapQueries <|> base.wrapQueries,
   lo.queryDetails <|> base.queryDetails,
   lo.recompileOptions <|> base.recompileOptions,
   lo.parse <|> base.parse,
   lo.getNested <|> base.getNested,
   lo.compiledMark || base.compiledMark⟩

/-- `compiledOpts[WRAPPER_OPTS] = true`. -/
def Options.withMark (o : Options) : Options :=
  ⟨o.nodeClass, o.separateSingle, o.expandChildren, o.wrapQueries,
   o.queryDetails, o.recompileOptions, o.parse, o.getNested, true⟩

/-- A search argument forwarded to the query engine by `query(...args)`:
an options object (possibly carrying the compiled marker), a boolean (the
"multiple" flag `get`/`find` force), a callback function (modelled as an
opaque token consumed by the engine), a pass-through plain object, or any
other value. -/
inductive Arg where
  | opts : Options → Arg
  | bool : Bool → Arg
  | fn : Nat → Arg
  | obj : ObjRef → Arg
  | val : Value → Arg

/-- A diagnostics record returned by the engine's `findWith` entry point
(`FindResult`): its `found` value plus opaque further diagnostics. -/
structure FindRes where
  found : Value
  info : Nat

/-- The external collaborators, as the wrapper observes them:
`qsa` is `node.querySelectorAll` (ordered match list; `querySelector` is
its first result per the DOM contract), `qfind`/`qfindWith` are the query
engine entry points `Q.find`/`Q.findWith`, and `validTag`/`createElement`/
`parseHTML` serve the constructor's string branch. -/
structure Env where
  qsa : Value → String → List Value
  qfind : Value → List Arg → Value
  qfindWith : Value → List Arg → FindRes
  validTag : String → Bool
  createElement : String → Value
  parseHTML : String → Options → Value

/-- A concrete environment (used to evaluate claims at closed inputs). -/
def defEnv : Env :=
  ⟨fun _ _ => [], fun _ _ => .vnull, fun _ _ => ⟨.vnull, 0⟩,
   fun _ => false, fun _ => .vnull, fun _ _ => .vnull⟩

/-- An `ElementsWrapper` instance: the original construction argument
(`_wrapped`), the options record, the resolved target (`wraps`), and the
two classification flags fixed at construction. -/
structure Wrapper where
  wrapped : Value
  options : Options
  wraps : Value
  isCollection : Bool
  isValid : Bool

/-- The `recompile` argument's effective (truthy) value:
`recompile = this.options.recompileOptions` is the default parameter, and
an absent `recompileOptions` option is falsy. -/
def resolvedRecompile (w : Wrapper) (recompile : Option Bool) : Bool :=
  match recompile with
  | some b => b
  | none => w.options.recompileOptions.getD false

/-- `getOptions(localOpts, recompile, mark)`: returns `localOpts` itself
when it is an already-compiled record and recompilation is not forced;
otherwise compiles `Object.assign({}, this.options, localOpts)` and, when
`mark` is set, attaches the compiled marker. -/
def getOptions (w : Wrapper) (localOpts : Option Options)
    (recompile : Option Bool) (mark : Bool) : Options :=
  let rc := resolvedRecompile w recompile
  match localOpts with
  | some lo =>
    if lo.compiledMark && !rc then lo
    else
      let compiledOpts := mergeOptions w.options lo
      if mark then compiledOpts.withMark else compiledOpts
  | none =>
    let compiledOpts := mergeOptions w.options optsNone
    if mark then compiledOpts.withMark else compiledOpts

/-- The constructor: resolve a string argument through the external tag
check / markup parser, classify the result as collection or single node,
collapse a one-member collection when `separateSingle` is enabled, and
derive validity (a non-empty collection, or a single `nodeClass`
instance). -/
def mkWrapper (env : Env) (wraps0 : Value) (options : Options) : Wrapper :=
  let ct := options.nodeClass.getD ClassK.element
  let ss := options.separateSingle.getD true
  let w1 : Value :=
    match wraps0 with
    | .str s =>
      if env.validTag s then env.createElement s
      else env.parseHTML s options
    | v => v
  let isColl0 := isCollectionV w1 ct
  let collapse := ss && isColl0 && decide (valLength w1 = 1)
  let w2 := if collapse then valIndex0 w1 else w1
  let isColl := if collapse then false else isColl0
  let valid := (isColl && decide (0 < valLength w2)) || instOf ct w2
  ⟨wraps0, options, w2, isColl, valid⟩

/-- `_make(wrap, options)`: compile effective options with recompilation
forced and the marker suppressed, then construct a new instance. -/
def make (env : Env) (w : Wrapper) (target : Value) (options : Option Options) : Wrapper :=
  mkWrapper env target (getOptions w options (some true) false)

/-- The outcome of the `children` getter: `same` when the getter returns
`this` itself (the identical instance, no new object constructed), or a
freshly constructed wrapper. -/
inductive ChildrenResult where
  | same
  | fresh : Wrapper → ChildrenResult

/-- The wrapper an outcome of `children` denotes, given the receiver. -/
def ChildrenResult.resolve (w : Wrapper) : ChildrenResult → Wrapper
  | .same => w
  | .fresh w' => w'

/-- The `makeOpts` object the `children` getter passes to `_make`:
`expandChildren` copied from the current options, `separateSingle` forced
off. -/
def childOpts (w : Wrapper) : Options :=
  ⟨none, some false, w.options.expandChildren, none, none, none, none, none, false⟩

/-- The `children` getter: invalid → `this`; collection with
`expandChildren` disabled → `this`; collection with it enabled → a new
wrapper over the flattened children of every member; single target → a new
wrapper over its `children` collection. -/
def children (env : Env) (w : Wrapper) : Except JsError ChildrenResult :=
  if !w.isValid then .ok .same
  else if w.isCollection then
    if w.options.expandChildren.getD false then
      match w.wraps with
      | .list ms =>
        match ms.mapM childrenVals with
        | .ok lss => .ok (.fresh (make env w (.list lss.flatten) (some (childOpts w))))
        | .error e => .error e
      | _ => .error .typeError
    else .ok .same
  else .ok (.fresh (make env w (childrenProp w.wraps) (some (childOpts w))))

/-- The result of `get`/`find`/`query`: `wrapQueries` decides whether the
raw value or a freshly constructed wrapper around it comes back. -/
inductive QueryResult where
  | raw : Value → QueryResult
  | wrapped : Wrapper → QueryResult

/-- `wrap ? this._make(elem) : elem`. -/
def wrapRaw (env : Env) (w : Wrapper) (wrapQ : Bool) (v : Value) : QueryResult :=
  if wrapQ then .wrapped (make env w v none) else .raw v

/-- A `get`/`find`/`query` return value: the result plus the
`$findWith`/`$queryOptions` metadata `query()` attaches when diagnostics
were requested (`none` when no metadata was attached). -/
structure QRet where
  result : QueryResult
  meta : Option (List FindRes × Options)

/-- Leading-argument scan of `query(...args)`: an empty argument list marks
the options invalid; a leading object carrying the compiled marker is
shifted off and used as the effective options. -/
def parseArgs : List Arg → Bool × Option Options × List Arg
  | [] => (true, none, [])
  | (Arg.opts o) :: rest =>
    if o.compiledMark then (false, some o, rest)
    else (false, none, Arg.opts o :: rest)
  | args => (false, none, args)

/-- The per-member loop of `query()` on a collection: engine call on every
`Element` member, diagnostics record accumulated per such member when
requested, truthy single-element hits collected directly and collection
hits flattened, in member order. -/
def queryCollect (env : Env) (withInfo : Bool) (args : List Arg) :
    List Value → List Value × List FindRes
  | [] => ([], [])
  | v :: vs =>
    let rest := queryCollect env withInfo args vs
    if v.isElem then
      let sub : Value × List FindRes :=
        if withInfo then
          let fr := env.qfindWith v args
          (fr.found, [fr])
        else (env.qfind v args, [])
      let hits : List Value :=
        if sub.1.truthy then
          if sub.1.isElem then [sub.1]
          else match sub.1 with
               | .list l => l
               | _ => []
        else []
      (hits ++ rest.1, sub.2 ++ rest.2)
    else rest

/-- `retVal = wrap ? this._make(results) : results`, followed by the
`withInfo` metadata attachment; `def(retVal, ...)` on a raw `null` or
`undefined` result throws. -/
def attachMeta (env : Env) (w : Wrapper) (wrapQ withInfo : Bool)
    (results : Value) (details : List FindRes) (opts : Options) :
    Except JsError QRet :=
  let retVal := wrapRaw env w wrapQ results
  if withInfo then
    match retVal with
    | .raw .vnull => .error .typeError
    | .raw .undefined => .error .typeError
    | .raw (.str _) => .error .typeError
    | _ => .ok ⟨retVal, some (details, opts)⟩
  else .ok ⟨retVal, none⟩

/-- `query(...args)`: pick up a leading pre-compiled options object (or
compile instance defaults), push a configured `getNested` object onto the
search arguments, return a null result when the options were invalid or
the instance is, fan the engine out over `Element` members of a collection
(flattening hits in member order), or invoke the engine once on a single
target; wrap per `wrapQueries` and attach diagnostics when requested. -/
def queryM (env : Env) (w : Wrapper) (args0 : List Arg) : Except JsError QRet :=
  let scanned := parseArgs args0
  let invalidOpts := scanned.1
  let opts := scanned.2.1.getD (getOptions w none none true)
  let wrapQ := opts.wrapQueries.getD true
  let withInfo := opts.queryDetails.getD false
  let args := scanned.2.2 ++
    (match opts.getNested with
     | some g => [Arg.obj g]
     | none => [])
  if invalidOpts || !w.isValid then
    attachMeta env w wrapQ withInfo .vnull [] opts
  else if w.isCollection then
    match w.wraps with
    | .list ms =>
      let coll := queryCollect env withInfo args ms
      attachMeta env w wrapQ withInfo (.list coll.1) coll.2 opts
    | _ => .error .typeError
  else
    if withInfo then
      let fr := env.qfindWith w.wraps args
      attachMeta env w wrapQ withInfo fr.found [fr] opts
    else
      attachMeta env w wrapQ withInfo (env.qfind w.wraps args) [] opts

/-- The `query` argument of `get`, by JS runtime type. -/
inductive GetQuery where
  | num : Nat → GetQuery
  | str : String → GetQuery
  | fn : Nat → GetQuery
  | other : GetQuery

/-- The string-selector loop of `get` on a collection: members are scanned
in order, non-`Element` members are skipped, and the loop breaks on the
first member whose `querySelector` result is truthy (non-null); by the DOM
contract `querySelector` returns the first `querySelectorAll` match. -/
def getStrLoop (env : Env) (s : String) : List Value → Value
  | [] => .undefined
  | v :: vs =>
    if v.isElem then
      match env.qsa v s with
      | r :: _ => r
      | [] => getStrLoop env s vs
    else getStrLoop env s vs

/-- `get(query, options)`: compile options; an invalid instance yields a
null result before any query-type dispatch; a numeric query indexes the
`children` traversal (collection) or `this.wraps.children` (single); a
string query short-circuits across collection members or runs
`querySelector` on the single target; a function query delegates to
`query()` with the multiple flag forced `false`; any other type throws. -/
def Wrapper.get (env : Env) (w : Wrapper) (q : GetQuery) (options : Option Options) :
    Except JsError QRet :=
  let opts := getOptions w options none true
  let wrapQ := opts.wrapQueries.getD true
  if !w.isValid then
    .ok ⟨wrapRaw env w wrapQ .vnull, none⟩
  else
    match q with
    | .num n =>
      if w.isCollection then
        match children env w with
        | .error e => .error e
        | .ok cr => .ok ⟨wrapRaw env w wrapQ (valIndex (cr.resolve w).wraps n), none⟩
      else
        match w.wraps with
        | .elem nd => .ok ⟨wrapRaw env w wrapQ (valIndex (.list (kidVals nd.kids)) n), none⟩
        | _ => .error .typeError
    | .str s =>
      if w.isCollection then
        match w.wraps with
        | .list ms => .ok ⟨wrapRaw env w wrapQ (getStrLoop env s ms), none⟩
        | _ => .error .typeError
      else
        match w.wraps with
        | .elem _ =>
          let sel := match env.qsa w.wraps s with
                     | r :: _ => r
                     | [] => .vnull
          .ok ⟨wrapRaw env w wrapQ sel, none⟩
        | _ => .error .typeError
    | .fn f => queryM env w [Arg.opts opts, Arg.bool false, Arg.fn f]
    | .other => .error .typeError

/-- The `query` argument of `find`, by JS runtime type. -/
inductive FindQuery where
  | str : String → FindQuery
  | fn : Nat → FindQuery
  | other : FindQuery

/-- `find(query, options)`: compile options; a function query delegates to
`query()` with the multiple flag forced `true` and a non-string query
throws, both before the validity check; an invalid instance yields a null
result; a collection flattens every `Element` member's `querySelectorAll`
matches in member order; a single target runs `querySelectorAll`
directly. -/
def Wrapper.find (env : Env) (w : Wrapper) (q : FindQuery) (options : Option Options) :
    Except JsError QRet :=
  let opts := getOptions w options none true
  match q with
  | .fn f => queryM env w [Arg.opts opts, Arg.bool true, Arg.fn f]
  | .other => .error .typeError
  | .str s =>
    let wrapQ := opts.wrapQueries.getD true
    if !w.isValid then
      .ok ⟨wrapRaw env w wrapQ .vnull, none⟩
    else if w.isCollection then
      match w.wraps with
      | .list ms =>
        .ok ⟨wrapRaw env w wrapQ
              (.list (ms.flatMap fun v => if v.isElem then env.qsa v s else [])), none⟩
      | _ => .error .typeError
    else
      match w.wraps with
      | .elem _ => .ok ⟨wrapRaw env w wrapQ (.list (env.qsa w.wraps s)), none⟩
      | _ => .error .typeError

/-- One result record of the `each()` method: the callback, the individual
element, its 0-based index, and the callback's return value. -/
structure EachRecord (β : Type) where
  fn : Nat → Value → Wrapper → β
  node : Value
  index : Nat
  ret : β

/-- `each(fn)`: a non-callable argument throws a `TypeError`; an invalid
instance yields an empty result list; a single target invokes the callback
once with index 0.  The collection branch of the source reads the
undeclared binding `node` in its loop condition (`i < node.length`), which
throws a `ReferenceError` before any callback runs. -/
def each {β : Type} (w : Wrapper) (fn : Option (Nat → Value → Wrapper → β)) :
    Except JsError (List (EachRecord β)) :=
  match fn with
  | none => .error .typeError
  | some f =>
    if !w.isValid then .ok []
    else if w.isCollection then .error .referenceError
    else .ok [⟨f, w.wraps, 0, f 0 w.wraps w⟩]

/-- The named insertion positions of the external Content Inserter
(`@lumjs/web-core/content.POS`). -/
inductive Pos where
  | first
  | last
  | before
  | after

/-- Content handed to one Content Inserter call. -/
inductive InsContent where
  | content : Value → InsContent
  | html : String → InsContent
  | text : String → InsContent

/-- One call the wrapper makes to the external Content Inserter:
`addContent(target, content, pos)` / `addHTML` / `addText`. -/
structure InsertEvent where
  target : Value
  what : InsContent
  pos : Pos

/-- What a content-mutation method returns: the instance itself (`this`)
or no value (`undefined`, from a branch with no `return`). -/
inductive MutRet where
  | this
  | undefined

/-- Identity of the element inserted by an event, when it inserted a single
element (used to compare clone identities). -/
def InsertEvent.contentRef : InsertEvent → Nat
  | ⟨_, .content (.elem n), _⟩ => n.ref
  | _ => 0

/-- The collection branch of `add` for single-`Element` content: each
member receives `getContent()` = `content.cloneNode(true)`, a fresh deep
clone per member, under the advancing identity allocator. -/
def cloneFan (nX : DomNode) (pos : Pos) : List Value → Nat → List InsertEvent × Nat
  | [], c => ([], c)
  | m :: ms, c =>
    let cl := cloneNode nX c
    let rest := cloneFan nX pos ms cl.2
    (⟨m, .content (.elem cl.1), pos⟩ :: rest.1, rest.2)

/-- `getContent()` for collection content: clone every entry
(`elem.cloneNode(true)`); a non-`Element` entry has no `cloneNode` method
and throws. -/
def cloneVals : List Value → Nat → Except JsError (List Value × Nat)
  | [], c => .ok ([], c)
  | .elem n :: rest, c =>
    let cl := cloneNode n c
    match cloneVals rest cl.2 with
    | .ok r => .ok (.elem cl.1 :: r.1, r.2)
    | .error e => .error e
  | _ :: _, _ => .error .typeError

/-- The collection branch of `add` for collection content: each member
receives a fresh array of clones of every content entry. -/
def cloneListFan (l : List Value) (pos : Pos) :
    List Value → Nat → Except JsError (List InsertEvent × Nat)
  | [], c => .ok ([], c)
  | m :: ms, c =>
    match cloneVals l c with
    | .error e => .error e
    | .ok r =>
      match cloneListFan l pos ms r.2 with
      | .error e => .error e
      | .ok rest => .ok (⟨m, .content (.list r.1), pos⟩ :: rest.1, rest.2)

/-- The `content` argument of `add`: possibly another wrapper instance
(unwrapped to its target), otherwise a plain value. -/
inductive AddContent where
  | wrapper : Wrapper → AddContent
  | value : Value → AddContent

/-- `add(content, pos)`: no-op returning `this` when invalid; unwrap a
wrapper argument; a single target passes the content straight through to
one `addContent` call; a collection fans out — strings reused as-is, a
single `Element` deep-cloned fresh per member, a collection cloned
entry-by-entry into a fresh array per member, anything else throws;
returns `this`.  The result carries the emitted Content Inserter calls and
the advanced identity allocator.  `AddContent.unwrap` is the
`content instanceof ElementsWrapper` unwrapping step. -/
def AddContent.unwrap : AddContent → Value
  | .wrapper cw => cw.wraps
  | .value v => v

/-- `add(content, pos)`: see the preceding doc comment. -/
def add (w : Wrapper) (content : AddContent) (pos : Pos) (c : Nat) :
    Except JsError (List InsertEvent × MutRet × Nat) :=
  if !w.isValid then .ok ([], .this, c)
  else if w.isCollection then
    match w.wraps with
    | .list ms =>
      match content.unwrap with
      | .str s => .ok (ms.map (fun m => ⟨m, .content (.str s), pos⟩), .this, c)
      | .elem nX =>
        .ok ((cloneFan nX pos ms c).1, .this, (cloneFan nX pos ms c).2)
      | .list l =>
        match cloneListFan l pos ms c with
        | .ok fan => .ok (fan.1, .this, fan.2)
        | .error e => .error e
      | _ => .error .typeError
    | _ => .error .typeError
  else
    .ok ([⟨w.wraps, .content content.unwrap, pos⟩], .this, c)

/-- `addHTML(html, pos)`: no-op returning `this` when invalid; otherwise
one `addHTML` inserter call per member (collection) or one for the single
target, and no `return` statement — the method yields `undefined`. -/
def addHTML (w : Wrapper) (html : String) (pos : Pos) :
    Except JsError (List InsertEvent × MutRet) :=
  if !w.isValid then .ok ([], .this)
  else if w.isCollection then
    match w.wraps with
    | .list ms => .ok (ms.map (fun m => ⟨m, .html html, pos⟩), .undefined)
    | _ => .error .typeError
  else .ok ([⟨w.wraps, .html html, pos⟩], .undefined)

/-- `addText(text, pos)`: same shape as `addHTML`, delegating to the
`addText` inserter; no `return` statement — the method yields
`undefined`. -/
def addText (w : Wrapper) (text : String) (pos : Pos) :
    Except JsError (List InsertEvent × MutRet) :=
  if !w.isValid then .ok ([], .this)
  else if w.isCollection then
    match w.wraps with
    | .list ms => .ok (ms.map (fun m => ⟨m, .text text, pos⟩), .undefined)
    | _ => .error .typeError
  else .ok ([⟨w.wraps, .text text, pos⟩], .undefined)

/-- Fixture for the C5 witness: a valid two-member collection with default
options (expand-children disabled). -/
def wColl5 : Wrapper :=
  mkWrapper defEnv (.list [.elem (.mk 10 "a" []), .elem (.mk 11 "b" [])]) optsNone
/-- Fixture for the C9 witness: an instance whose base options set
`wrapQueries = true`. -/
def w9 : Wrapper :=
  mkWrapper defEnv .vnull ⟨none, none, none, some true, none, none, none, none, false⟩
/-- Fixture for the C9 witness: a local override `{wrapQueries: false}`. -/
def lo9 : Options := ⟨none, none, none, some false, none, none, none, none, false⟩
/-- Fixture for C1: a valid two-member collection with default options. -/
def wColl1 : Wrapper :=
  mkWrapper defEnv (.list [.elem (.mk 0 "li" []), .elem (.mk 1 "li" [])]) optsNone
/-- Fixture for C2: an invalid instance (wrapping `null`) whose options
request query diagnostics. -/
def wInv2 : Wrapper :=
  mkWrapper defEnv .vnull ⟨none, none, none, none, some true, none, none, none, false⟩
/-- Fixture for C7: engine where member `A` (ref 0) and member `B` (ref 1)
both contain a selector match. -/
def env7 : Env :=
  ⟨fun v _ =>
    match v with
    | .elem (.mk 0 _ _) => [.elem (.mk 2 "r" [])]
    | .elem (.mk 1 _ _) => [.elem (.mk 3 "r" [])]
    | _ => [],
   fun _ _ => .vnull, fun _ _ => ⟨.vnull, 0⟩,
   fun _ => false, fun _ => .vnull, fun _ _ => .vnull⟩
/-- Fixture for C7: the two-member collection `[A, B]`. -/
def w7 : Wrapper :=
  mkWrapper env7 (.list [.elem (.mk 0 "a" []), .elem (.mk 1 "b" [])]) optsNone
/-- Fixture for C6: engine where member `A` (ref 0) has one match and
member `B` (ref 1) has two. -/
def env6 : Env :=
  ⟨fun v _ =>
    match v with
    | .elem (.mk 0 _ _) => [.elem (.mk 2 "r" [])]
    | .elem (.mk 1 _ _) => [.elem (.mk 3 "r" []), .elem (.mk 4 "r" [])]
    | _ => [],
   fun _ _ => .vnull, fun _ _ => ⟨.vnull, 0⟩,
   fun _ => false, fun _ => .vnull, fun _ _ => .vnull⟩
/-- Fixture for C6: the two-member collection `[A, B]`. -/
def w6 : Wrapper :=
  mkWrapper env6 (.list [.elem (.mk 0 "a" []), .elem (.mk 1 "b" [])]) optsNone
/-- Fixture for C8: a two-node content tree and a valid two-member
collection. -/
def nX8 : DomNode := .mk 0 "x" [.mk 1 "y" []]
/-- Fixture for C8: the wrapped collection. -/
def w8 : Wrapper :=
  mkWrapper defEnv (.list [.elem (.mk 5 "m" []), .elem (.mk 6 "m" [])]) optsNone
/-- Fixture for C10: a valid single-element instance. -/
def wS10 : Wrapper := mkWrapper defEnv (.elem (.mk 0 "d" [])) optsNone
/-- Fixture for C10: an invalid instance (wrapping `null`). -/
def wI10 : Wrapper := mkWrapper defEnv .vnull optsNone

/-- Claim C4: wrapping a collection of exactly one capability-passing node
with collapse-single (`separateSingle`) enabled yields a non-collection
instance whose resolved target is that sole node (and the instance is
valid); the same input with collapse-single disabled stays a collection. -/
theorem collapse_single_law (env : Env) (v : Value) (opts : Options)
    (hcap : instOf (opts.nodeClass.getD ClassK.element) v = true) :
    (opts.separateSingle.getD true = true →
      (mkWrapper env (.list [v]) opts).isCollection = false
      ∧ (mkWrapper env (.list [v]) opts).wraps = v
      ∧ (mkWrapper env (.list [v]) opts).isValid = true)
    ∧ (opts.separateSingle = some false →
      (mkWrapper env (.list [v]) opts).isCollection = true) := by
  constructor
  · intro hss
    simp [mkWrapper, isCollectionV, valLength, valIndex0, hss, hcap]
  · intro hss
    simp [mkWrapper, isCollectionV, valLength, valIndex0, hss]

/-- Witness for C4 at a concrete element and the default options. -/
theorem collapse_single_law_witness :
    instOf ((optsNone).nodeClass.getD ClassK.element) (.elem (.mk 0 "div" [])) = true
    ∧ (optsNone).separateSingle.getD true = true
    ∧ (mkWrapper defEnv (.list [.elem (.mk 0 "div" [])]) optsNone).isCollection = false
    ∧ (mkWrapper defEnv (.list [.elem (.mk 0 "div" [])]) optsNone).wraps = .elem (.mk 0 "div" [])
    ∧ (mkWrapper defEnv (.list [.elem (.mk 0 "div" [])]) optsNone).isValid = true := by
  have h := (collapse_single_law defEnv (.elem (.mk 0 "div" [])) optsNone rfl).1 rfl
  exact ⟨rfl, rfl, h.1, h.2.1, h.2.2⟩

/-- Counterexample to claim C3 as stated ("for every options record,
including any choice of nodeClass"): with `nodeClass: Object` an empty
array is itself an `instanceof` the capability class, so the constructor's
second validity disjunct (`wraps instanceof ct`) accepts it and the
instance is valid. -/
theorem empty_collection_valid_under_object_nodeClass_cex :
    (mkWrapper defEnv (.list [])
      ⟨some ClassK.object, none, none, none, none, none, none, none, false⟩).isValid = true := rfl

/-- Claim C3 (amended): wrapping an empty collection yields `is-valid =
false` for every options record whose node-capability class the empty
collection object itself is not an instance of — in particular for the
default `Element` class. -/
theorem empty_collection_invalid_when_capability_rejects_it
    (env : Env) (opts : Options)
    (hcap : instOf (opts.nodeClass.getD ClassK.element) (.list []) = false) :
    (mkWrapper env (.list []) opts).isValid = false := by
  simp [mkWrapper, isCollectionV, valLength, valIndex0, hcap]

/-- Witness for the amended C3 at the default options. -/
theorem empty_collection_invalid_witness :
    instOf ((optsNone).nodeClass.getD ClassK.element) (.list []) = false
    ∧ (mkWrapper defEnv (.list []) optsNone).isValid = false :=
  ⟨rfl, empty_collection_invalid_when_capability_rejects_it defEnv optsNone rfl⟩

/-- Claim C5: the `children` getter returns the identical instance (`this`,
no new wrapper constructed) whenever the instance is invalid, and whenever
it is a collection with expand-children disabled; hence `children` is
idempotent on all such instances. -/
theorem children_identity_no_expand (env : Env) (w : Wrapper)
    (h : w.isValid = false
      ∨ (w.isCollection = true ∧ w.options.expandChildren.getD false = false)) :
    children env w = .ok ChildrenResult.same
    ∧ (children env w).map (fun cr => cr.resolve w) = .ok w := by
  have hsame : children env w = .ok ChildrenResult.same := by
    rcases h with hv | ⟨hc, he⟩
    · simp [children, hv]
    · cases hv : w.isValid with
      | false => simp [children, hv]
      | true => simp [children, hv, hc, he]
  exact ⟨hsame, by rw [hsame]; rfl⟩


/-- Witness for C5: a concrete valid collection with expand-children
disabled, on which `children` returns `this` itself. -/
theorem children_identity_no_expand_witness :
    ((wColl5).isCollection = true ∧ (wColl5).options.expandChildren.getD false = false)
    ∧ children defEnv wColl5 = .ok ChildrenResult.same :=
  ⟨⟨rfl, rfl⟩,
   (children_identity_no_expand defEnv wColl5 (Or.inr ⟨rfl, rfl⟩)).1⟩

/-- Claim C9: `getOptions(local, recompile, mark)` returns `local` itself
when it carries the compiled marker and recompilation is not forced
(with `recompile` defaulting to the instance's `recompileOptions`);
otherwise it returns a fresh shallow merge in which every key present in
`local` overrides the base option and every key absent from `local` keeps
the base value (the no-`local` call compiles a copy of the base
options). -/
theorem getOptions_compile_and_merge (w : Wrapper) (lo : Options)
    (recompile : Option Bool) (mark : Bool) :
    (lo.compiledMark = true → resolvedRecompile w recompile = false →
      getOptions w (some lo) recompile mark = lo)
    ∧ ((lo.compiledMark = false ∨ resolvedRecompile w recompile = true) →
      (getOptions w (some lo) recompile mark).nodeClass = (lo.nodeClass <|> w.options.nodeClass)
      ∧ (getOptions w (some lo) recompile mark).separateSingle = (lo.separateSingle <|> w.options.separateSingle)
      ∧ (getOptions w (some lo) recompile mark).expandChildren = (lo.expandChildren <|> w.options.expandChildren)
      ∧ (getOptions w (some lo) recompile mark).wrapQueries = (lo.wrapQueries <|> w.options.wrapQueries)
      ∧ (getOptions w (some lo) recompile mark).queryDetails = (lo.queryDetails <|> w.options.queryDetails)
      ∧ (getOptions w (some lo) recompile mark).recompileOptions = (lo.recompileOptions <|> w.options.recompileOptions)
      ∧ (getOptions w (some lo) recompile mark).parse = (lo.parse <|> w.options.parse)
      ∧ (getOptions w (some lo) recompile mark).getNested = (lo.getNested <|> w.options.getNested))
    ∧ ((getOptions w none recompile mark).nodeClass = w.options.nodeClass
      ∧ (getOptions w none recompile mark).separateSingle = w.options.separateSingle
      ∧ (getOptions w none recompile mark).expandChildren = w.options.expandChildren
      ∧ (getOptions w none recompile mark).wrapQueries = w.options.wrapQueries
      ∧ (getOptions w none recompile mark).queryDetails = w.options.queryDetails
      ∧ (getOptions w none recompile mark).recompileOptions = w.options.recompileOptions
      ∧ (getOptions w none recompile mark).parse = w.options.parse
      ∧ (getOptions w none recompile mark).getNested = w.options.getNested) := by
  refine ⟨?_, ?_, ?_⟩
  · intro hm hrc
    simp [getOptions, hm, hrc]
  · intro h
    have hcond : (lo.compiledMark && !resolvedRecompile w recompile) = false := by
      rcases h with h | h <;> simp [h]
    cases mark <;>
      simp [getOptions, hcond, mergeOptions, Options.withMark, optsNone]
  · cases mark <;>
      simp [getOptions, mergeOptions, Options.withMark, optsNone]



/-- Witness for C9: overriding `wrapQueries` wins over the base `true`;
threading the compiled record back in returns it unchanged. -/
theorem getOptions_compile_and_merge_witness :
    (getOptions w9 (some lo9) none true).wrapQueries = some false
    ∧ (getOptions w9 (some optsNone) none true).wrapQueries = some true
    ∧ getOptions w9 (some (getOptions w9 (some lo9) none true)) none true
        = getOptions w9 (some lo9) none true := by
  refine ⟨?_, ?_, ?_⟩
  · have h := ((getOptions_compile_and_merge w9 lo9 none true).2.1 (Or.inl rfl)).2.2.2.1
    rw [h]; rfl
  · have h := ((getOptions_compile_and_merge w9 optsNone none true).2.1 (Or.inl rfl)).2.2.2.1
    rw [h]; rfl
  · exact (getOptions_compile_and_merge w9 (getOptions w9 (some lo9) none true) none true).1 rfl rfl


/-- Claim C1 (failing input): on a valid collection instance with a
callable argument, `each(fn)` throws a `ReferenceError` — the collection
loop's condition reads the undeclared binding `node` (`i < node.length`) —
instead of invoking the callback once per member and returning one record
per member as the claim (and the method's own doc comment) state. -/
theorem each_on_collection_raises_referenceError :
    (wColl1).isValid = true ∧ (wColl1).isCollection = true
    ∧ each (β := Nat) wColl1 (some (fun i _ _ => i)) = .error .referenceError :=
  ⟨rfl, rfl, rfl⟩

/-- Claim C2 (amended): on an invalid instance `get` returns the
none result for every query kind — numeric, string, function, and any
other — because the `!this.isValid` check precedes the query-type
dispatch; in particular a function query does not delegate to `query()`
and no diagnostics metadata is attached. -/
theorem get_invalid_returns_none_for_all_query_kinds (env : Env) (w : Wrapper)
    (q : GetQuery) (options : Option Options) (hv : w.isValid = false) :
    Wrapper.get env w q options =
      .ok ⟨wrapRaw env w ((getOptions w options none true).wrapQueries.getD true) .vnull,
           none⟩ := by
  simp [Wrapper.get, hv]


/-- Witness for the amended C2 at a concrete invalid instance. -/
theorem get_invalid_returns_none_witness :
    (wInv2).isValid = false
    ∧ Wrapper.get defEnv wInv2 (.fn 0) none =
        .ok ⟨wrapRaw defEnv wInv2
              ((getOptions wInv2 none none true).wrapQueries.getD true) .vnull, none⟩ :=
  ⟨rfl, get_invalid_returns_none_for_all_query_kinds defEnv wInv2 (.fn 0) none rfl⟩

/-- Counterexample to claim C2 as stated: on an invalid instance a function
query is NOT delegated to `query()` — with `queryDetails` enabled, the
delegation `this.query(options, false, query)` would attach the
`$findWith` diagnostics metadata, while `get` actually returns the bare
none result without it. -/
theorem get_invalid_function_query_no_delegation_cex :
    Wrapper.get defEnv wInv2 (.fn 0) none ≠
      queryM defEnv wInv2
        [Arg.opts (getOptions wInv2 none none true), Arg.bool false, Arg.fn 0] := by
  intro h
  have h2 := congrArg
    (fun e : Except JsError QRet =>
      match e with
      | .ok r => r.meta.isSome
      | .error _ => false) h
  exact absurd h2 (by decide)

/-- Claim C7: on a valid collection instance a string query scans members
in order, skips members that are not `Element`s, and short-circuits on the
first member with a non-empty selector match: the result is that member's
first match, independent of every later member (a later member is never
queried once a hit is found). -/
theorem get_selector_short_circuits (env : Env) (w : Wrapper) (s : String)
    (options : Option Options) (ms : List Value)
    (hv : w.isValid = true) (hc : w.isCollection = true) (hm : w.wraps = .list ms) :
    Wrapper.get env w (.str s) options =
      .ok ⟨wrapRaw env w ((getOptions w options none true).wrapQueries.getD true)
            (getStrLoop env s ms), none⟩
    ∧ (∀ vX ms', vX.isElem = false → getStrLoop env s (vX :: ms') = getStrLoop env s ms')
    ∧ (∀ vA a as ms', vA.isElem = true → env.qsa vA s = a :: as →
        getStrLoop env s (vA :: ms') = a) := by
  refine ⟨by simp [Wrapper.get, hv, hc, hm], ?_, ?_⟩
  · intro vX ms' hX
    simp [getStrLoop, hX]
  · intro vA a as ms' hA hq
    simp [getStrLoop, hA, hq]



/-- Witness for C7: both members match, and `get` returns only A's first
match. -/
theorem get_selector_short_circuits_witness :
    (w7).isValid = true ∧ (w7).isCollection = true
    ∧ env7.qsa (.elem (.mk 0 "a" [])) "q" = [.elem (.mk 2 "r" [])]
    ∧ env7.qsa (.elem (.mk 1 "b" [])) "q" = [.elem (.mk 3 "r" [])]
    ∧ Wrapper.get env7 w7 (.str "q") none =
        .ok ⟨wrapRaw env7 w7 true (.elem (.mk 2 "r" [])), none⟩ := by
  refine ⟨rfl, rfl, rfl, rfl, ?_⟩
  have h := (get_selector_short_circuits env7 w7 "q" none
    [.elem (.mk 0 "a" []), .elem (.mk 1 "b" [])] rfl rfl rfl).1
  rw [h]
  rfl

/-- Claim C6: on a valid collection instance `find` with a string selector
iterates members in order, skips non-`Element` members, runs the
multi-selector match on each remaining member, and flattens all matches in
member order; for `[A, B]` with matches `[a1]` and `[b1, b2]` the result
list is exactly `[a1, b1, b2]`. -/
theorem find_flattens_in_member_order (env : Env) (w : Wrapper) (s : String)
    (options : Option Options) (ms : List Value)
    (hv : w.isValid = true) (hc : w.isCollection = true) (hm : w.wraps = .list ms) :
    Wrapper.find env w (.str s) options =
      .ok ⟨wrapRaw env w ((getOptions w options none true).wrapQueries.getD true)
            (.list (ms.flatMap fun v => if v.isElem then env.qsa v s else [])), none⟩
    ∧ (∀ vA vB a1 b1 b2, ms = [vA, vB] → vA.isElem = true → vB.isElem = true →
        env.qsa vA s = [a1] → env.qsa vB s = [b1, b2] →
        (ms.flatMap fun v => if v.isElem then env.qsa v s else []) = [a1, b1, b2]) := by
  constructor
  · simp [Wrapper.find, hv, hc, hm]
  · rintro vA vB a1 b1 b2 rfl hA hB hqa hqb
    simp [hA, hB, hqa, hqb]



/-- Witness for C6: matches `[a1]` and `[b1, b2]` flatten to
`[a1, b1, b2]` in that order. -/
theorem find_flattens_witness :
    (w6).isValid = true ∧ (w6).isCollection = true
    ∧ Wrapper.find env6 w6 (.str "q") none =
        .ok ⟨wrapRaw env6 w6 true
              (.list [.elem (.mk 2 "r" []), .elem (.mk 3 "r" []), .elem (.mk 4 "r" [])]),
             none⟩ := by
  refine ⟨rfl, rfl, ?_⟩
  have h := (find_flattens_in_member_order env6 w6 "q" none
    [.elem (.mk 0 "a" []), .elem (.mk 1 "b" [])] rfl rfl rfl).1
  rw [h]
  rfl

/-- A relabelled tree's root carries the requested identity. -/
theorem relabel_ref (n : DomNode) (c : Nat) : (relabel n c).ref = c := by
  cases n with
  | mk r t ks => rfl

/-- Every tree has at least one node. -/
theorem size_pos (n : DomNode) : 1 ≤ n.size := by
  cases n with
  | mk r t ks => simp [DomNode.size]

mutual

/-- A deep clone is structurally equal to its original. -/
theorem structEq_relabel (n : DomNode) (c : Nat) : structEq (relabel n c) n = true := by
  cases n with
  | mk r t ks =>
    simp only [relabel, structEq, Bool.and_eq_true, beq_self_eq_true, true_and]
    exact structEqKids_relabelKids ks (c + 1)

theorem structEqKids_relabelKids (ks : List DomNode) (c : Nat) :
    structEqKids (relabelKids ks c) ks = true := by
  cases ks with
  | nil => rfl
  | cons k ks =>
    simp only [relabelKids, structEqKids, Bool.and_eq_true]
    exact ⟨structEq_relabel k c, structEqKids_relabelKids ks (c + DomNode.size k)⟩

end

/-- Behaviour of the per-member clone fan-out: one insertion per member in
member order; each inserted value is a fresh structural clone of the
content node whose identity was allocated at or after the starting
counter; the inserted clone identities are strictly increasing (hence
pairwise distinct). -/
theorem cloneFan_spec (nX : DomNode) (pos : Pos) (ms : List Value) :
    ∀ c : Nat,
      (cloneFan nX pos ms c).1.map InsertEvent.target = ms
      ∧ c ≤ (cloneFan nX pos ms c).2
      ∧ (∀ ev ∈ (cloneFan nX pos ms c).1, ∃ cl,
          ev.what = InsContent.content (Value.elem cl)
          ∧ structEq cl nX = true
          ∧ c ≤ cl.ref
          ∧ InsertEvent.contentRef ev = cl.ref)
      ∧ ((cloneFan nX pos ms c).1.map InsertEvent.contentRef).Pairwise (· < ·) := by
  induction ms with
  | nil => intro c; simp [cloneFan]
  | cons m ms ih =>
    intro c
    obtain ⟨iht, ihc, ihev, ihp⟩ := ih (c + nX.size)
    have hfan : cloneFan nX pos (m :: ms) c =
        (⟨m, .content (.elem (relabel nX c)), pos⟩ ::
          (cloneFan nX pos ms (c + nX.size)).1,
         (cloneFan nX pos ms (c + nX.size)).2) := by
      simp [cloneFan, cloneNode]
    refine ⟨?_, ?_, ?_, ?_⟩
    · rw [hfan]; simp [iht]
    · rw [hfan]
      exact le_trans (Nat.le_add_right c nX.size) ihc
    · rw [hfan]
      intro ev hev
      rcases List.mem_cons.mp hev with rfl | hev
      · exact ⟨relabel nX c, rfl, structEq_relabel nX c,
          le_of_eq (relabel_ref nX c).symm,
          by simp [InsertEvent.contentRef]⟩
      · obtain ⟨cl, h1, h2, h3, h4⟩ := ihev ev hev
        exact ⟨cl, h1, h2, le_trans (Nat.le_add_right c nX.size) h3, h4⟩
    · rw [hfan]
      simp only [List.map_cons, List.pairwise_cons]
      constructor
      · intro r hr
        obtain ⟨ev, hev, hevr⟩ := List.mem_map.mp hr
        obtain ⟨cl, _, _, h3, h4⟩ := ihev ev hev
        have hlt : c < c + nX.size :=
          Nat.lt_add_of_pos_right (lt_of_lt_of_le Nat.zero_lt_one (size_pos nX))
        have : InsertEvent.contentRef ⟨m, .content (.elem (relabel nX c)), pos⟩ = c := by
          simp [InsertEvent.contentRef, relabel_ref]
        rw [this, ← hevr, h4]
        exact lt_of_lt_of_le hlt h3
      · exact ihp

/-- Claim C8: on a valid collection instance, `add(nodeX)` with
single-`Element` content emits one Content Inserter call per member, in
member order; every inserted value is structurally equal to `nodeX` but
has a fresh identity (the inserted identities are pairwise distinct), and
`nodeX` itself is never passed to the inserter — given the allocator
invariant that `nodeX`'s identity predates the allocation counter. -/
theorem add_fanout_clones (w : Wrapper) (ms : List Value) (nX : DomNode)
    (pos : Pos) (c : Nat)
    (hv : w.isValid = true) (hc : w.isCollection = true) (hm : w.wraps = .list ms)
    (hfresh : nX.ref < c) :
    add w (.value (.elem nX)) pos c =
      .ok ((cloneFan nX pos ms c).1, .this, (cloneFan nX pos ms c).2)
    ∧ (cloneFan nX pos ms c).1.map InsertEvent.target = ms
    ∧ (∀ ev ∈ (cloneFan nX pos ms c).1, ∃ cl,
        ev.what = InsContent.content (Value.elem cl)
        ∧ structEq cl nX = true ∧ nX.ref < cl.ref)
    ∧ (∀ ev ∈ (cloneFan nX pos ms c).1,
        ev.what ≠ InsContent.content (Value.elem nX))
    ∧ ((cloneFan nX pos ms c).1.map InsertEvent.contentRef).Pairwise (· ≠ ·) := by
  obtain ⟨ht, _, hev, hp⟩ := cloneFan_spec nX pos ms c
  refine ⟨by simp [add, AddContent.unwrap, hv, hc, hm], ht, ?_, ?_, ?_⟩
  · intro ev hevm
    obtain ⟨cl, h1, h2, h3, _⟩ := hev ev hevm
    exact ⟨cl, h1, h2, lt_of_lt_of_le hfresh h3⟩
  · intro ev hevm heq
    obtain ⟨cl, h1, h2, h3, _⟩ := hev ev hevm
    rw [heq] at h1
    simp only [InsContent.content.injEq, Value.elem.injEq] at h1
    rw [← h1] at h3
    exact absurd (lt_of_lt_of_le hfresh h3) (lt_irrefl _)
  · exact hp.imp (fun hab => Nat.ne_of_lt hab)



/-- Witness for C8 at a concrete collection, content node, and allocation
counter. -/
theorem add_fanout_clones_witness :
    (w8).isValid = true ∧ (w8).isCollection = true ∧ (nX8).ref < 7
    ∧ add w8 (.value (.elem nX8)) Pos.last 7 =
        .ok ((cloneFan nX8 Pos.last [.elem (.mk 5 "m" []), .elem (.mk 6 "m" [])] 7).1,
             .this,
             (cloneFan nX8 Pos.last [.elem (.mk 5 "m" []), .elem (.mk 6 "m" [])] 7).2) :=
  ⟨rfl, rfl, by decide,
   (add_fanout_clones w8 [.elem (.mk 5 "m" []), .elem (.mk 6 "m" [])] nX8
     Pos.last 7 rfl rfl rfl (by decide)).1⟩

/-- Claim C10: on a valid instance `addHTML` and `addText` return
`undefined` (their valid branches have no `return` statement) while `add`
returns the instance itself whenever it returns at all; on an invalid
instance all three are no-ops returning the instance unchanged (no
inserter call is emitted).  Only `add` is chainable on valid instances. -/
theorem content_mutation_return_values (w : Wrapper) (html text : String)
    (content : AddContent) (pos : Pos) (c : Nat) :
    (w.isValid = true →
      (∀ r, addHTML w html pos = .ok r → r.2 = MutRet.undefined)
      ∧ (∀ r, addText w text pos = .ok r → r.2 = MutRet.undefined)
      ∧ (∀ r, add w content pos c = .ok r → r.2.1 = MutRet.this))
    ∧ (w.isValid = false →
      addHTML w html pos = .ok ([], MutRet.this)
      ∧ addText w text pos = .ok ([], MutRet.this)
      ∧ add w content pos c = .ok ([], MutRet.this, c)) := by
  constructor
  · intro hv
    refine ⟨?_, ?_, ?_⟩
    · intro r hr
      unfold addHTML at hr
      repeat' split at hr
      all_goals (try (cases hr))
      all_goals (try rfl)
      all_goals simp_all
    · intro r hr
      unfold addText at hr
      repeat' split at hr
      all_goals (try (cases hr))
      all_goals (try rfl)
      all_goals simp_all
    · intro r hr
      unfold add at hr
      repeat' split at hr
      all_goals (try (cases hr))
      all_goals rfl
  · intro hv
    simp [addHTML, addText, add, hv]



/-- Witness for C10 at a concrete valid single-element instance and a
concrete invalid instance. -/
theorem content_mutation_return_values_witness :
    ([(⟨Value.elem (.mk 0 "d" []), InsContent.html "x", Pos.last⟩ : InsertEvent)],
      MutRet.undefined).2 = MutRet.undefined
    ∧ ([(⟨Value.elem (.mk 0 "d" []), InsContent.content (.str "z"), Pos.last⟩ : InsertEvent)],
        MutRet.this, 0).2.1 = MutRet.this
    ∧ addHTML wI10 "x" Pos.last = .ok ([], MutRet.this)
    ∧ addText wI10 "y" Pos.last = .ok ([], MutRet.this)
    ∧ add wI10 (.value (.str "z")) Pos.last 0 = .ok ([], MutRet.this, 0) := by
  have hS := (content_mutation_return_values wS10 "x" "y"
    (.value (.str "z")) Pos.last 0).1 rfl
  have hI := (content_mutation_return_values wI10 "x" "y"
    (.value (.str "z")) Pos.last 0).2 rfl
  exact ⟨hS.1 _ rfl, hS.2.2 _ rfl, hI.1, hI.2.1, hI.2.2⟩
